import Mathlib

/-!
# Verification of the home-monitoring acquisition pipeline

Shallow embedding of the Modbus-TCP logger core (`src/logger/modbus.py`,
`src/logger/loggerpcv01.py`): value decoding, register-group planning,
reading validation, the transport session, and the dual-cadence poll
scheduler, together with theorems settling the specification claims.

Machine integers are modelled as `Nat`/`Int` with explicit `% 2^w` where
the source masks; Python floats that the claims touch are exact rationals
(IEEE-754 binary32 decoding is exact in `ℚ` for finite values, with
infinities and NaN tracked by a dedicated constructor).
-/

namespace HomeMonitoring

/-- A Python numeric value as returned by `parse_register_data`
(`int` or `float`): a finite number (exact rational), a signed infinity,
or NaN. -/
inductive PyNum where
  | num : ℚ → PyNum
  | inf : Bool → PyNum
  | nan : PyNum
deriving DecidableEq, Repr

/-- Least-significant-first decimal digits of `n`, with structural fuel
(`n` itself suffices since `n` has at most `n` digits). -/
def digitsRev : ℕ → ℕ → List ℕ
  | 0, _ => []
  | _ + 1, 0 => []
  | fuel + 1, n + 1 => (n + 1) % 10 :: digitsRev fuel ((n + 1) / 10)

/-- Decimal digit list of `str(n)` for a non-negative Python int,
most-significant first (`str(0) = "0"`). -/
def natDigits (n : ℕ) : List ℕ :=
  if n = 0 then [0] else (digitsRev n n).reverse

/-- Python sequence indexing `data[pos]` for `pos` possibly negative
(negative indices count from the end, as in `data[-1]`).  In
`parse_register_data` the index is always in `[-1, byte_count)` for
non-empty `data`, so the out-of-range default is never reached. -/
def pyGet (data : List ℕ) (pos : ℤ) : ℕ :=
  if 0 ≤ pos then data.getD pos.toNat 0
  else data.getD (data.length - (-pos).toNat) 0

/-- The `endian_digits` list built by `parse_register_data`: for widths
2/4/8 with a long-enough endian string, the 0-based (possibly `-1`)
positions `int(d) - 1`; otherwise the identity order. -/
def endianDigits (byteCount : ℕ) (endianStr : List ℕ) : List ℤ :=
  if byteCount = 2 then
    if 2 ≤ endianStr.length then (endianStr.take 2).map (fun (d : ℕ) => (d : ℤ) - 1)
    else [0, 1]
  else if byteCount = 4 then
    if 4 ≤ endianStr.length then (endianStr.take 4).map (fun (d : ℕ) => (d : ℤ) - 1)
    else [0, 1, 2, 3]
  else if byteCount = 8 then
    if 8 ≤ endianStr.length then (endianStr.take 8).map (fun (d : ℕ) => (d : ℤ) - 1)
    else [0, 1, 2, 3, 4, 5, 6, 7]
  else (List.range byteCount).map (fun (i : ℕ) => (i : ℤ))

/-- The reordering loop of `parse_register_data`:
`reordered` starts as `byte_count` zero bytes and position `i` is set to
`data[pos]` for `i, pos in enumerate(endian_digits)` whenever
`i < byte_count and pos < byte_count`. -/
def reorderBytes (data : List ℕ) (digits : List ℤ) : List ℕ :=
  (List.range data.length).map (fun i =>
    match digits[i]? with
    | some pos => if pos < (data.length : ℤ) then pyGet data pos else 0
    | none => 0)

/-- The reordered (big-endian) buffer `parse_register_data` builds from
`data` and the decimal-digit string of `endian`. -/
def decodeBuffer (data : List ℕ) (endian : ℕ) : List ℕ :=
  reorderBytes data (endianDigits data.length (natDigits endian))

/-- Big-endian unsigned interpretation: the `value = (value << 8) | byte`
fold of the `'int'` branch, also used by `struct.unpack` modelling. -/
def beNat (bytes : List ℕ) : ℕ :=
  bytes.foldl (fun value byte => value * 256 + byte % 256) 0

/-- Two's-complement reinterpretation of an unsigned `w`-bit value
(`struct.unpack` of `>b` / `>h` / `>i`). -/
def toSigned (w : ℕ) (n : ℕ) : ℤ :=
  if n < 2 ^ (w - 1) then (n : ℤ) else (n : ℤ) - 2 ^ w

/-- `struct.unpack('>f', ...)` on four bytes: IEEE-754 binary32 decode,
exact in `ℚ` for finite values. -/
def decodeFloat32 (b : List ℕ) : PyNum :=
  let b0 := b.getD 0 0
  let b1 := b.getD 1 0
  let b2 := b.getD 2 0
  let b3 := b.getD 3 0
  let sign := b0 / 128
  let expo := (b0 % 128) * 2 + b1 / 128
  let frac := (b1 % 128) * 65536 + b2 * 256 + b3
  if expo = 255 then
    if frac = 0 then PyNum.inf (sign = 1) else PyNum.nan
  else
    let mag : ℚ :=
      if expo = 0 then (frac : ℚ) / 2 ^ 149
      else ((2 ^ 23 + frac : ℕ) : ℚ) * (2 : ℚ) ^ ((expo : ℤ) - 150)
    PyNum.num (if sign = 1 then -mag else mag)

/-- `parse_register_data(data, datatype, endian)` from `src/logger/modbus.py`:
empty data yields the sentinel `-999`; otherwise the bytes are reordered by
the endian permutation and interpreted as `'float'` (first 4 bytes, width
≥ 4 required), `'int'` (unsigned big-endian over the whole buffer), or
`'sint'` (width 2 → 16-bit, width ≥ 4 → 32-bit over the first 4 bytes,
width 1 → 8-bit, otherwise the sentinel); unknown types yield the
sentinel. -/
def parse_register_data (data : List ℕ) (datatype : String) (endian : ℕ) : PyNum :=
  if data.isEmpty then PyNum.num (-999)
  else
    let byteCount := data.length
    let reordered := decodeBuffer data endian
    if datatype = "float" then
      if 4 ≤ byteCount then decodeFloat32 (reordered.take 4)
      else PyNum.num (-999)
    else if datatype = "int" then
      PyNum.num (beNat reordered)
    else if datatype = "sint" then
      if byteCount = 2 then PyNum.num (toSigned 16 (beNat (reordered.take 2)))
      else if 4 ≤ byteCount then PyNum.num (toSigned 32 (beNat (reordered.take 4)))
      else if byteCount = 1 then PyNum.num (toSigned 8 (beNat (reordered.take 1)))
      else PyNum.num (-999)
    else PyNum.num (-999)

/-- Round half to even (Python `round` tie-breaking), exact on rationals. -/
def roundHalfEven (q : ℚ) : ℤ :=
  if q - ⌊q⌋ < 1 / 2 then ⌊q⌋
  else if 1 / 2 < q - ⌊q⌋ then ⌊q⌋ + 1
  else if ⌊q⌋ % 2 = 0 then ⌊q⌋ else ⌊q⌋ + 1

/-- Python `round(x, 3)`, modelled exactly on rationals. -/
def round3 (q : ℚ) : ℚ := (roundHalfEven (q * 1000) : ℚ) / 1000

/-- `float(value) * multiplier` with IEEE special-value propagation. -/
def pyMulScale (v : PyNum) (mul : ℚ) : PyNum :=
  match v with
  | .num q => .num (q * mul)
  | .inf s => if mul = 0 then .nan else if 0 < mul then .inf s else .inf (!s)
  | .nan => .nan

/-- `round(·, 3)` on a Python number (infinities and NaN pass through). -/
def pyRound3 : PyNum → PyNum
  | .num q => .num (round3 q)
  | v => v

/-- One parameter record as built by `group_contiguous_registers`:
name, register address (`info['id']`), size in 16-bit words, declared
type, byte-order permutation, scale multiplier. -/
structure PlanParam where
  name : String
  address : ℕ
  size : ℕ
  type : String
  endian : ℕ
  mul : ℚ
deriving DecidableEq, Repr

/-- The per-member slicing/decoding step of `read_register_group`
(`loggerpcv01.py`): slice `size*2` bytes at word offset `offset` (2 bytes
per register), fail on a short slice, decode with `parse_register_data`,
map the `-999` sentinel to `None`, otherwise scale by the multiplier and
round to 3 decimals. -/
def readMemberValue (data : List ℕ) (p : PlanParam) (offset : ℕ) : Option PyNum :=
  let paramData := (data.drop (offset * 2)).take (p.size * 2)
  if paramData.length < p.size * 2 then none
  else
    let value := parse_register_data paramData p.type p.endian
    if value = PyNum.num (-999) then none
    else some (pyRound3 (pyMulScale value p.mul))

/-! ### Helper lemmas about the byte-reordering step -/

lemma map_range_getD {α : Type} (l : List α) (d : α) :
    (List.range l.length).map (fun i => l.getD i d) = l := by
  apply List.ext_getElem (by simp)
  intro i h1 h2
  simp [List.getD_eq_getElem?_getD, List.getElem?_eq_getElem h2]

/-- Reordering by the identity digit list is the identity. -/
lemma reorderBytes_identity (data : List ℕ) :
    reorderBytes data ((List.range data.length).map (fun (i : ℕ) => (i : ℤ))) = data := by
  unfold reorderBytes
  have h : ∀ i ∈ List.range data.length,
      (match ((List.range data.length).map (fun (i : ℕ) => (i : ℤ)))[i]? with
        | some pos => if pos < (data.length : ℤ) then pyGet data pos else 0
        | none => 0) = data.getD i 0 := by
    intro i hi
    rw [List.mem_range] at hi
    rw [List.getElem?_map, List.getElem?_range hi, Option.map_some']
    show (if (i : ℤ) < (data.length : ℤ) then pyGet data (i : ℤ) else 0) = data.getD i 0
    have : ((i : ℤ)) < (data.length : ℤ) := by exact_mod_cast hi
    rw [if_pos this, pyGet, if_pos (by positivity)]
    simp
  rw [List.map_congr_left h, map_range_getD]

/-- With a digit list coming from a long-enough permutation string whose
first `data.length` digits are 1-based in-range positions, the reordered
buffer takes output byte `i` from input byte `digit_i - 1`. -/
lemma reorderBytes_perm (data : List ℕ) (ds : List ℕ)
    (hlen : data.length ≤ ds.length)
    (hdig : ∀ d ∈ ds.take data.length, 1 ≤ d ∧ d ≤ data.length) :
    reorderBytes data ((ds.take data.length).map (fun (d : ℕ) => (d : ℤ) - 1)) =
      (List.range data.length).map (fun i => data.getD (ds.getD i 1 - 1) 0) := by
  unfold reorderBytes
  apply List.map_congr_left
  intro i hi
  rw [List.mem_range] at hi
  have hids : i < ds.length := lt_of_lt_of_le hi hlen
  have hlt : i < (ds.take data.length).length := by
    simp [List.length_take]; omega
  have htk : (ds.take data.length)[i]? = some ds[i] := by
    rw [List.getElem?_take, if_pos hi, List.getElem?_eq_getElem hids]
  have hmem : ds[i] ∈ ds.take data.length := by
    have h1 : (ds.take data.length).get ⟨i, hlt⟩ ∈ ds.take data.length :=
      List.get_mem _ _ _
    have h2 : (ds.take data.length).get ⟨i, hlt⟩ = ds[i] := by
      rw [List.get_eq_getElem, List.getElem_take]
    rwa [h2] at h1
  obtain ⟨h1, h2⟩ := hdig _ hmem
  rw [List.getElem?_map, htk, Option.map_some']
  show (if ((ds[i] : ℤ) - 1) < (data.length : ℤ) then pyGet data ((ds[i] : ℤ) - 1) else 0)
      = data.getD (ds.getD i 1 - 1) 0
  rw [if_pos (by omega)]
  have hpos : (0 : ℤ) ≤ (ds[i] : ℤ) - 1 := by omega
  rw [pyGet, if_pos hpos]
  have htn : ((ds[i] : ℤ) - 1).toNat = ds[i] - 1 := by omega
  rw [htn, List.getD_eq_getElem?_getD ds i 1, List.getElem?_eq_getElem hids]
  rfl
/-- For widths 2/4/8 with a long-enough endian string, `endianDigits`
is the mapped prefix of the digit string. -/
lemma endianDigits_of_long (L : ℕ) (ds : List ℕ)
    (hw : L = 2 ∨ L = 4 ∨ L = 8) (hlen : L ≤ ds.length) :
    endianDigits L ds = (ds.take L).map (fun (d : ℕ) => (d : ℤ) - 1) := by
  rcases hw with h | h | h <;> subst h <;> simp [endianDigits, hlen]

/-- For widths 2/4/8 with a short endian string, `endianDigits` is the
identity order. -/
lemma endianDigits_of_short (L : ℕ) (ds : List ℕ)
    (hw : L = 2 ∨ L = 4 ∨ L = 8) (hlen : ds.length < L) :
    endianDigits L ds = (List.range L).map (fun (i : ℕ) => (i : ℤ)) := by
  rcases hw with h | h | h <;> subst h <;>
    rw [endianDigits] <;> norm_num [List.range_succ] <;> omega

/-- **C3** (confirmed). For every byte span of width 2, 4, or 8 and every
byte-order permutation string of at least that length whose digits are
1-based in-range source positions, the Value Decoder sets output byte `i`
to input byte `permutation[i] - 1`; when the permutation string is shorter
than the width it defaults to identity order; and permutation "3,4,1,2"
applied to bytes `[0x00,0x00,0x43,0x65]` as a float with scale
multiplier 1 yields 229.0. -/
theorem C3_byteorder_permutation :
    (∀ (data : List ℕ) (endian : ℕ),
      data.length = 2 ∨ data.length = 4 ∨ data.length = 8 →
      (data.length ≤ (natDigits endian).length →
        (∀ d ∈ (natDigits endian).take data.length, 1 ≤ d ∧ d ≤ data.length) →
        decodeBuffer data endian =
          (List.range data.length).map
            (fun i => data.getD ((natDigits endian).getD i 1 - 1) 0)) ∧
      ((natDigits endian).length < data.length → decodeBuffer data endian = data))
    ∧ parse_register_data [0, 0, 67, 101] "float" 3412 = PyNum.num 229
    ∧ readMemberValue [0, 0, 67, 101] ⟨"p", 0, 2, "float", 3412, 1⟩ 0 =
        some (PyNum.num 229) := by
  refine ⟨fun data endian hw => ⟨fun hlen hdig => ?_, fun hshort => ?_⟩, ?_, ?_⟩
  · rw [decodeBuffer, endianDigits_of_long _ _ hw hlen, reorderBytes_perm _ _ hlen hdig]
  · rw [decodeBuffer, endianDigits_of_short _ _ hw hshort, reorderBytes_identity]
  · norm_num [parse_register_data, decodeBuffer, natDigits, digitsRev, endianDigits,
      reorderBytes, pyGet, decodeFloat32, List.range_succ, List.getD, Int.toNat]
  · norm_num [readMemberValue, parse_register_data, decodeBuffer, natDigits, digitsRev,
      endianDigits, reorderBytes, pyGet, decodeFloat32, pyRound3, pyMulScale, round3,
      roundHalfEven, List.range_succ, List.getD, Int.toNat]

/-- Witness for C3: instantiates the quantified part at width 4 with
permutation 3412 and with a too-short permutation string. -/
theorem C3_byteorder_permutation_witness :
    decodeBuffer [10, 20, 30, 40] 3412 = [30, 40, 10, 20] ∧
    decodeBuffer [10, 20, 30, 40] 12 = [10, 20, 30, 40] := by
  constructor
  · have h := (C3_byteorder_permutation.1 [10, 20, 30, 40] 3412 (by norm_num)).1
      (by norm_num [natDigits, digitsRev]) (by norm_num [natDigits, digitsRev])
    rw [h]
    norm_num [natDigits, digitsRev, List.range_succ, List.getD]
  · have h := (C3_byteorder_permutation.1 [10, 20, 30, 40] 12 (by norm_num)).2
      (by norm_num [natDigits, digitsRev])
    rw [h]

/-- **C4** (corrected): the original claim that signed-int decoding of any
width other than 1, 2, 4 yields the sentinel is false — any width ≥ 4
(an 8-byte span included) decodes the **first four** reordered bytes as a
32-bit two's-complement integer.  Amended: widths 1 and 2 decode as 8/16-bit
two's complement, any width ≥ 4 decodes the first four reordered bytes as
32-bit two's complement, and exactly the empty span and width 3 yield the
`-999` sentinel. -/
theorem C4_sint_widths (data : List ℕ) (endian : ℕ) :
    (data.length = 0 ∨ data.length = 3 →
      parse_register_data data "sint" endian = PyNum.num (-999)) ∧
    (data.length = 1 →
      parse_register_data data "sint" endian =
        PyNum.num (toSigned 8 (beNat ((decodeBuffer data endian).take 1)))) ∧
    (data.length = 2 →
      parse_register_data data "sint" endian =
        PyNum.num (toSigned 16 (beNat ((decodeBuffer data endian).take 2)))) ∧
    (4 ≤ data.length →
      parse_register_data data "sint" endian =
        PyNum.num (toSigned 32 (beNat ((decodeBuffer data endian).take 4)))) := by
  have hne : data.length ≠ 0 → ¬(data.isEmpty = true) := by
    intro h0 hc
    rw [List.isEmpty_iff] at hc
    exact h0 (by rw [hc]; rfl)
  refine ⟨fun h => ?_, fun h => ?_, fun h => ?_, fun h => ?_⟩
  · rcases h with h | h
    · rw [List.length_eq_zero] at h
      simp [parse_register_data, h]
    · rw [parse_register_data, if_neg (hne (by omega))]
      simp only [String.reduceEq, if_false, if_true]
      rw [if_neg (show ¬(data.length = 2) by omega),
        if_neg (show ¬(4 ≤ data.length) by omega),
        if_neg (show ¬(data.length = 1) by omega)]
  · rw [parse_register_data, if_neg (hne (by omega))]
    simp only [String.reduceEq, if_false, if_true]
    rw [if_neg (show ¬(data.length = 2) by omega),
      if_neg (show ¬(4 ≤ data.length) by omega), if_pos h]
  · rw [parse_register_data, if_neg (hne (by omega))]
    simp only [String.reduceEq, if_false, if_true]
    rw [if_pos h]
  · rw [parse_register_data, if_neg (hne (by omega))]
    simp only [String.reduceEq, if_false, if_true]
    rw [if_neg (show ¬(data.length = 2) by omega), if_pos h]
/-- Counterexample for C4 as stated: an 8-byte span declared signed-int
does **not** yield the decode failure sentinel — it decodes to the numeric
value 5 here. -/
theorem C4_sint_widths_counterexample :
    parse_register_data [0, 0, 0, 5, 0, 0, 0, 0] "sint" 12345678 = PyNum.num 5 ∧
    parse_register_data [0, 0, 0, 5, 0, 0, 0, 0] "sint" 12345678 ≠ PyNum.num (-999) := by
  have h : parse_register_data [0, 0, 0, 5, 0, 0, 0, 0] "sint" 12345678 = PyNum.num 5 := by
    norm_num [parse_register_data, decodeBuffer, natDigits, digitsRev, endianDigits,
      reorderBytes, pyGet, beNat, toSigned, List.range_succ, List.getD, Int.toNat]
    rfl
  refine ⟨h, ?_⟩
  rw [h]
  intro hc
  rw [PyNum.num.injEq] at hc
  norm_num at hc

/-- Witness for C4 (amended): every width case on concrete spans. -/
theorem C4_sint_widths_witness :
    parse_register_data [] "sint" 1234 = PyNum.num (-999) ∧
    parse_register_data [1, 2, 3] "sint" 1234 = PyNum.num (-999) ∧
    parse_register_data [255] "sint" 1234 = PyNum.num (-1) ∧
    parse_register_data [252, 25] "sint" 12 = PyNum.num (-999) ∧
    parse_register_data [0, 0, 0, 5, 0, 0, 0, 0] "sint" 12345678 = PyNum.num 5 := by
  refine ⟨(C4_sint_widths [] 1234).1 (Or.inl (by norm_num)),
    (C4_sint_widths [1, 2, 3] 1234).1 (Or.inr (by norm_num)), ?_, ?_, ?_⟩
  · rw [(C4_sint_widths [255] 1234).2.1 (by norm_num)]
    norm_num [decodeBuffer, natDigits, digitsRev, endianDigits,
      reorderBytes, pyGet, beNat, toSigned, List.range_succ, List.getD, Int.toNat]
  · rw [(C4_sint_widths [252, 25] 12).2.2.1 (by norm_num)]
    norm_num [decodeBuffer, natDigits, digitsRev, endianDigits,
      reorderBytes, pyGet, beNat, toSigned, List.range_succ, List.getD, Int.toNat]
  · rw [(C4_sint_widths [0, 0, 0, 5, 0, 0, 0, 0] 12345678).2.2.2 (by norm_num)]
    norm_num [decodeBuffer, natDigits, digitsRev, endianDigits,
      reorderBytes, pyGet, beNat, toSigned, List.range_succ, List.getD, Int.toNat]

/-- **C9** (confirmed). Whenever a member's raw span decodes to exactly
the numeric value `-999` (before the scale multiplier),
`read_register_group` reports that parameter as null — the sentinel is
in-band, so a genuine `-999` reading is indistinguishable from a decode
failure. -/
theorem C9_sentinel_inband (data : List ℕ) (p : PlanParam) (offset : ℕ)
    (h : parse_register_data ((data.drop (offset * 2)).take (p.size * 2))
        p.type p.endian = PyNum.num (-999)) :
    readMemberValue data p offset = none := by
  rw [readMemberValue]
  split
  · rfl
  · simp [h]

/-- Witness for C9: the bytes `0xFC 0x19` genuinely encode the 16-bit
signed value `-999`; the member is nevertheless reported null. -/
theorem C9_sentinel_inband_witness :
    readMemberValue [252, 25] ⟨"p", 0, 1, "sint", 12, 1⟩ 0 = none := by
  apply C9_sentinel_inband
  norm_num [parse_register_data, decodeBuffer, natDigits, digitsRev, endianDigits,
    reorderBytes, pyGet, beNat, toSigned, List.range_succ, List.getD, Int.toNat]
  decide
/-! ### Validator (`validate_readings`) -/

/-- The `VALIDATION_RANGES` table of `loggerpcv01.py` (inclusive bounds),
in the dict's insertion order. -/
def VALIDATION_RANGES : List (String × ℚ × ℚ) :=
  [("Voltage", 100, 300),
   ("Current", 0, 100),
   ("Frequency", 45, 55),
   ("Power Factor", -(3/2), 3/2),
   ("Active Power", -20000, 20000),
   ("Apparent Power", 0, 20000),
   ("Reactive Power", -20000, 20000)]

/-- A readings mapping: parameter name to value (Python dicts keep one
binding per key; lookup takes the first). -/
abbrev Readings := List (String × Option PyNum)

/-- Python `value < bound` on a float value. -/
def pyLtQ : PyNum → ℚ → Bool
  | .num q, b => decide (q < b)
  | .inf s, _ => s
  | .nan, _ => false

/-- Python `value > bound` on a float value. -/
def pyGtQ : PyNum → ℚ → Bool
  | .num q, b => decide (b < q)
  | .inf s, _ => !s
  | .nan, _ => false

/-- The range-check loop of `validate_readings` over a list of
per-parameter bounds: a present, non-`None` value strictly below the
lower or strictly above the upper bound rejects. -/
def validateAux (readings : Readings) : List (String × ℚ × ℚ) → Bool
  | [] => true
  | (param, lo, hi) :: rest =>
    match readings.lookup param with
    | some (some v) =>
      if pyLtQ v lo || pyGtQ v hi then false else validateAux readings rest
    | _ => validateAux readings rest

/-- `validate_readings` from `loggerpcv01.py`: iterates
`VALIDATION_RANGES`, rejecting on the first present, non-null,
out-of-range field.  The acceptance Boolean is modelled; the error
message string is not. -/
def validate_readings (readings : Readings) : Bool :=
  validateAux readings VALIDATION_RANGES

lemma validateAux_true_iff (readings : Readings) (ranges : List (String × ℚ × ℚ))
    (hfin : ∀ param v, readings.lookup param = some (some v) → ∃ q, v = PyNum.num q) :
    validateAux readings ranges = true ↔
      ∀ pr ∈ ranges, ∀ q : ℚ, readings.lookup pr.1 = some (some (PyNum.num q)) →
        pr.2.1 ≤ q ∧ q ≤ pr.2.2 := by
  induction ranges with
  | nil => simp [validateAux]
  | cons hd tl ih =>
    obtain ⟨param, lo, hi⟩ := hd
    rw [validateAux]
    cases hl : readings.lookup param with
    | none =>
      simp only [ih, List.mem_cons, forall_eq_or_imp]
      constructor
      · intro h
        exact ⟨fun q hq => absurd hq (by rw [hl]; intro hc; cases hc), h⟩
      · intro h
        exact h.2
    | some ov =>
      cases ov with
      | none =>
        simp only [ih, List.mem_cons, forall_eq_or_imp]
        constructor
        · intro h
          refine ⟨fun q hq => ?_, h⟩
          rw [hl] at hq
          cases hq
        · intro h
          exact h.2
      | some v =>
        obtain ⟨q, rfl⟩ := hfin _ _ hl
        change (if (pyLtQ (PyNum.num q) lo || pyGtQ (PyNum.num q) hi) = true
            then false else validateAux readings tl) = true ↔ _
        by_cases hq : q < lo ∨ hi < q
        · rw [if_pos (show (pyLtQ (PyNum.num q) lo || pyGtQ (PyNum.num q) hi) = true by
              simp only [pyLtQ, pyGtQ, Bool.or_eq_true, decide_eq_true_eq]; exact hq)]
          simp only [Bool.false_eq_true, false_iff]
          intro h
          have := h (param, lo, hi) (List.mem_cons_self _ _) q hl
          rcases hq with hq | hq <;> simp at this <;> linarith [this.1, this.2]
        · rw [if_neg (show ¬((pyLtQ (PyNum.num q) lo || pyGtQ (PyNum.num q) hi) = true) by
              simp only [pyLtQ, pyGtQ, Bool.or_eq_true, decide_eq_true_eq]; exact hq)]
          push_neg at hq
          simp only [ih, List.mem_cons, forall_eq_or_imp]
          constructor
          · intro h
            refine ⟨fun q' hq' => ?_, h⟩
            rw [hl] at hq'
            cases hq'
            exact hq
          · intro h
            exact h.2

/-- **C5** (confirmed). `validate_readings` uses the inclusive bounds of
`VALIDATION_RANGES`; for finite-valued mappings it accepts exactly when
every present, non-null bounded field lies within its bound (so any single
out-of-range field rejects the reading); voltage 350 is rejected even with
all other fields in range, and voltage 230 / current 10 / frequency 50 is
accepted. -/
theorem C5_validator_bounds :
    VALIDATION_RANGES =
      [("Voltage", 100, 300), ("Current", 0, 100), ("Frequency", 45, 55),
       ("Power Factor", -(3/2), 3/2), ("Active Power", -20000, 20000),
       ("Apparent Power", 0, 20000), ("Reactive Power", -20000, 20000)] ∧
    (∀ readings : Readings,
      (∀ param v, readings.lookup param = some (some v) → ∃ q, v = PyNum.num q) →
      (validate_readings readings = true ↔
        ∀ pr ∈ VALIDATION_RANGES, ∀ q : ℚ,
          readings.lookup pr.1 = some (some (PyNum.num q)) →
          pr.2.1 ≤ q ∧ q ≤ pr.2.2)) ∧
    validate_readings
      [("Voltage", some (PyNum.num 350)), ("Current", some (PyNum.num 10)),
       ("Frequency", some (PyNum.num 50))] = false ∧
    validate_readings
      [("Voltage", some (PyNum.num 230)), ("Current", some (PyNum.num 10)),
       ("Frequency", some (PyNum.num 50))] = true := by
  refine ⟨rfl, fun readings hfin => validateAux_true_iff readings _ hfin, ?_, ?_⟩
  · decide
  · decide

/-- Witness for C5: the acceptance criterion instantiated at the empty
mapping, plus the inclusive upper voltage bound on a concrete mapping. -/
theorem C5_validator_bounds_witness :
    validate_readings [] = true ∧
    validate_readings [("Voltage", some (PyNum.num 300))] = true := by
  constructor
  · exact (C5_validator_bounds.2.1 [] (fun param v h => by simp [List.lookup] at h)).mpr
      (fun pr hpr q hq => by simp [List.lookup] at hq)
  · decide

/-- **C10** (confirmed). `validate_readings` range-checks only the seven
names in `VALIDATION_RANGES`: a mapping whose keys all lie outside that
set is accepted regardless of its values. -/
theorem C10_unlisted_params_accepted (readings : Readings)
    (h : ∀ kv ∈ readings, ∀ pr ∈ VALIDATION_RANGES, kv.1 ≠ pr.1) :
    validate_readings readings = true := by
  have hnone : ∀ pr ∈ VALIDATION_RANGES, readings.lookup pr.1 = none := by
    intro pr hpr
    induction readings with
    | nil => rfl
    | cons kv tl ih =>
      rw [List.lookup]
      have hne : (pr.1 == kv.1) = false := by
        simp only [beq_eq_false_iff_ne, ne_eq]
        intro hc
        exact h kv (List.mem_cons_self _ _) pr hpr hc.symm
      rw [hne]
      exact ih (fun kv' hkv' => h kv' (List.mem_cons_of_mem _ hkv'))
  rw [validate_readings]
  have : ∀ rs : List (String × ℚ × ℚ),
      (∀ pr ∈ rs, readings.lookup pr.1 = none) → validateAux readings rs = true := by
    intro rs
    induction rs with
    | nil => intro _; rfl
    | cons hd tl ih =>
      intro hall
      obtain ⟨param, lo, hi⟩ := hd
      rw [validateAux, hall (param, lo, hi) (List.mem_cons_self _ _)]
      exact ih fun pr hpr => hall pr (List.mem_cons_of_mem _ hpr)
  exact this _ hnone

/-- Witness for C10: a mapping holding only an (absurdly large) energy
counter is accepted. -/
theorem C10_unlisted_params_accepted_witness :
    validate_readings [("Import Active Energy", some (PyNum.num 999999))] = true := by
  apply C10_unlisted_params_accepted
  intro kv hkv pr hpr
  rw [List.mem_singleton] at hkv
  subst hkv
  fin_cases hpr <;> decide

/-! ### Transport session (`ModbusTCPClient.read_registers`) -/

/-- Connection-relevant state of a `ModbusTCPClient`: whether a socket is
open (`self.sock is not None` / `self._connected`) and the transaction
counter. -/
structure MbState where
  connected : Bool
  transactionId : ℕ
deriving DecidableEq, Repr

/-- Environment of one `read_registers` call: `sendOk` is `false` when
`sendall` raises (`socket.timeout` or a connection error); `response` is
the byte stream the peer delivers within the timeout after the request
(bytes that never arrive in time are simply absent from it).  Stale
pre-request bytes are drained by `_clear_socket_buffer` before sending and
never reach the parser, so they are not modelled. -/
structure Wire where
  sendOk : Bool
  response : List ℕ
deriving DecidableEq, Repr

/-- Result of a modelled `read_registers` call: the returned data bytes
(`none` on failure), the successor client state, and the request frame
actually sent (`none` when nothing was sent). -/
structure ReadResult where
  data : Option (List ℕ)
  state : MbState
  sent : Option (List ℕ)
deriving DecidableEq, Repr

/-- The request frame `read_registers` builds: 7-byte MBAP header
(transaction id, protocol id 0, length `len(pdu) + 1`, unit id) followed
by the 5-byte PDU `[function_code, addr_hi, addr_lo, count_hi, count_lo]`,
multi-byte fields big-endian and masked with `& 0xFF`. -/
def buildRequest (tid unitId fc addr count : ℕ) : List ℕ :=
  let pdu := [fc, addr / 256 % 256, addr % 256, count / 256 % 256, count % 256]
  [tid / 256 % 256, tid % 256, 0, 0, 0, pdu.length + 1, unitId] ++ pdu

/-- The receive-and-parse phase of `read_registers`: read 7 header bytes
(fail on short header), check the echoed transaction id, compute
`remaining = length - 1` (fail when ≤ 0), read exactly `remaining` PDU
bytes (fail on short read), fail on an exception frame (`pdu[0] & 0x80`),
fail on a function-code mismatch, and otherwise return the
`pdu[2 : 2 + pdu[1]]` data slice (`None` when the PDU is too short to
carry data).  `_recv_exact` swallows its own timeouts, so every failure
here is a plain `return None`. -/
def parseResponse (tid fc : ℕ) (response : List ℕ) : Option (List ℕ) :=
  let header := response.take 7
  if header.length < 7 then none
  else
    let recvTid := (header.getD 0 0) <<< 8 ||| header.getD 1 0
    let length := (header.getD 4 0) <<< 8 ||| header.getD 5 0
    if recvTid ≠ tid then none
    else if length ≤ 1 then none
    else
      let remaining := length - 1
      let pdu := (response.drop 7).take remaining
      if pdu.length < remaining then none
      else if pdu.headD 0 &&& 128 ≠ 0 then none
      else if pdu.headD 0 ≠ fc then none
      else if 2 < pdu.length then some ((pdu.drop 2).take (pdu.getD 1 0))
      else none

/-- `ModbusTCPClient.read_registers`: fails immediately when no socket is
open; otherwise increments the transaction id mod 65536 and sends the
frame.  An exception while sending (timeout, connection error, or a
`bytes(...)` `ValueError` from a unit id or function code above 255) lands
in the `except` handlers, which call `self.close()`; every receive-side
frame failure inside `parseResponse` instead returns `None` with the
socket left open. -/
def read_registers (st : MbState) (w : Wire) (unitId fc addr count : ℕ) : ReadResult :=
  if st.connected = false then ⟨none, st, none⟩
  else
    let tid := (st.transactionId + 1) % 65536
    if 256 ≤ unitId ∨ 256 ≤ fc then ⟨none, ⟨false, tid⟩, none⟩
    else if w.sendOk = false then ⟨none, ⟨false, tid⟩, none⟩
    else ⟨parseResponse tid fc w.response, ⟨true, tid⟩,
      some (buildRequest tid unitId fc addr count)⟩

/-- Modelled from the spec: the request byte sequence exactly as the
"Wire protocol" section lists it — `[transId_hi, transId_lo, 0x00, 0x00,
0x00, len_hi, len_lo, unitId, funcCode, addr_hi, addr_lo, count_hi,
count_lo]` with length field value 6 — for comparison against the frame
the code builds. -/
def specRequestFrame (tid unitId fc addr count : ℕ) : List ℕ :=
  [tid / 256 % 256, tid % 256, 0, 0, 0, 0, 6, unitId, fc,
   addr / 256 % 256, addr % 256, count / 256 % 256, count % 256]

/-- **C1** (corrected): the original claim is false — receive-side frame
failures do not close the socket.  Amended: a read in `Disconnected` state
fails immediately with no frame sent; an exception on the send path
(timeout or error in `sendall`, or an out-of-byte-range unit id or
function code) closes the socket; but when the frame is sent, the session
stays `Connected` whatever the receive outcome — a timeout while
receiving, a malformed or short header, a transaction-id mismatch, an
invalid length, a short PDU, a device exception frame, or a function-code
mismatch all make `read()` return failure with the socket still open, so
the next `read()` reuses it. -/
theorem C1_failure_disconnect (st : MbState) (w : Wire) (u f a c : ℕ) :
    (st.connected = false → read_registers st w u f a c = ⟨none, st, none⟩) ∧
    (st.connected = true → u < 256 → f < 256 → w.sendOk = false →
      (read_registers st w u f a c).state.connected = false ∧
      (read_registers st w u f a c).data = none) ∧
    (st.connected = true → u < 256 → f < 256 → w.sendOk = true →
      (read_registers st w u f a c).state.connected = true ∧
      (read_registers st w u f a c).data =
        parseResponse ((st.transactionId + 1) % 65536) f w.response) := by
  refine ⟨fun h => ?_, fun h hu hf hs => ?_, fun h hu hf hs => ?_⟩
  · rw [read_registers, if_pos h]
  · rw [read_registers, if_neg (by rw [h]; simp), if_neg (by omega), if_pos hs]
    exact ⟨rfl, rfl⟩
  · rw [read_registers, if_neg (by rw [h]; simp), if_neg (by omega),
      if_neg (by rw [hs]; simp)]
    exact ⟨rfl, rfl⟩

/-- Counterexample for C1 as stated: a read that fails on a transaction-id
mismatch (the response echoes id 99, the request carried id 6) leaves the
session `Connected`, so the next `read()` does *not* observe
`Disconnected`. -/
theorem C1_failure_disconnect_counterexample :
    (read_registers ⟨true, 5⟩ ⟨true, [0, 99, 0, 0, 0, 2, 3, 3, 0]⟩ 1 3 0 1).data
      = none ∧
    (read_registers ⟨true, 5⟩ ⟨true, [0, 99, 0, 0, 0, 2, 3, 3, 0]⟩ 1 3 0 1).state.connected
      = true ∧
    ((0 : ℕ) <<< 8 ||| 99) ≠ (5 + 1) % 65536 := by
  decide

/-- Witness for C1 (amended): each branch instantiated — a disconnected
read fails immediately, a send failure closes, and a mismatch failure
leaves the session connected. -/
theorem C1_failure_disconnect_witness :
    read_registers ⟨false, 7⟩ ⟨true, []⟩ 1 3 0 1 = ⟨none, ⟨false, 7⟩, none⟩ ∧
    (read_registers ⟨true, 7⟩ ⟨false, []⟩ 1 3 0 1).state.connected = false ∧
    (read_registers ⟨true, 5⟩ ⟨true, [0, 99, 0, 0, 0, 2, 3, 3, 0]⟩ 1 3 0 1).state.connected
      = true := by
  refine ⟨(C1_failure_disconnect ⟨false, 7⟩ ⟨true, []⟩ 1 3 0 1).1 rfl,
    ((C1_failure_disconnect ⟨true, 7⟩ ⟨false, []⟩ 1 3 0 1).2.1 rfl
      (by norm_num) (by norm_num) rfl).1,
    ((C1_failure_disconnect ⟨true, 5⟩ ⟨true, [0, 99, 0, 0, 0, 2, 3, 3, 0]⟩ 1 3 0 1).2.2 rfl
      (by norm_num) (by norm_num) rfl).1⟩

/-- **C8** (corrected): the spec's 13-byte frame listing has one `0x00`
too many — the code sends a 12-byte frame.  Amended: every request frame
is bit-exact `[transId_hi, transId_lo, 0x00, 0x00, len_hi, len_lo, unitId,
funcCode, addr_hi, addr_lo, count_hi, count_lo]` with length field value 6
(PDU length + 1), all multi-byte fields big-endian, and the transaction id
incremented modulo 65536 on every request. -/
theorem C8_request_frame (st : MbState) (w : Wire) (unitId fc addr count : ℕ)
    (hconn : st.connected = true) (hsend : w.sendOk = true)
    (hu : unitId < 256) (hf : fc < 256) (ha : addr < 65536) (hc : count < 65536) :
    (read_registers st w unitId fc addr count).sent =
      some [(st.transactionId + 1) % 65536 / 256, (st.transactionId + 1) % 65536 % 256,
        0, 0, 0, 6, unitId, fc, addr / 256, addr % 256, count / 256, count % 256] ∧
    (read_registers st w unitId fc addr count).state.transactionId =
      (st.transactionId + 1) % 65536 := by
  rw [read_registers, if_neg (by rw [hconn]; simp), if_neg (by omega),
    if_neg (by rw [hsend]; simp)]
  refine ⟨?_, rfl⟩
  have htid : (st.transactionId + 1) % 65536 < 65536 := Nat.mod_lt _ (by norm_num)
  simp only [buildRequest]
  have e1 : (st.transactionId + 1) % 65536 / 256 % 256 =
      (st.transactionId + 1) % 65536 / 256 := by omega
  have e2 : addr / 256 % 256 = addr / 256 := by omega
  have e3 : count / 256 % 256 = count / 256 := by omega
  rw [e1, e2, e3]
  rfl

/-- Witness for C8 (amended): the exact 12-byte frame sent for
transaction 1, unit 1, function 3, address 258, count 2. -/
theorem C8_request_frame_witness :
    (read_registers ⟨true, 0⟩ ⟨true, []⟩ 1 3 258 2).sent =
      some [0, 1, 0, 0, 0, 6, 1, 3, 1, 2, 0, 2] := by
  have h := (C8_request_frame ⟨true, 0⟩ ⟨true, []⟩ 1 3 258 2 rfl rfl
    (by norm_num) (by norm_num) (by norm_num) (by norm_num)).1
  rw [h]
  rfl

/-- Counterexample for C8 as stated: the code's frame has 12 bytes, while
the spec's listed byte sequence has 13 (an extra `0x00` between the
protocol-id and length fields); they differ on every request. -/
theorem C8_request_frame_counterexample :
    (read_registers ⟨true, 0⟩ ⟨true, []⟩ 1 3 258 2).sent =
      some [0, 1, 0, 0, 0, 6, 1, 3, 1, 2, 0, 2] ∧
    ((read_registers ⟨true, 0⟩ ⟨true, []⟩ 1 3 258 2).sent.getD []).length = 12 ∧
    (specRequestFrame 1 1 3 258 2).length = 13 ∧
    (read_registers ⟨true, 0⟩ ⟨true, []⟩ 1 3 258 2).sent ≠
      some (specRequestFrame 1 1 3 258 2) := by
  decide

/-! ### Register planner (`group_contiguous_registers`) -/

/-- Per-parameter metadata entry (`paraminfo[name]`): optional keys, with
the defaults the planner applies (`size` 2, `type` `'float'`, `endian`
1234, `mul` 1); a missing `id` key excludes the parameter. -/
structure ParamInfo where
  id : Option ℕ := none
  size : Option ℕ := none
  type : Option String := none
  endian : Option ℕ := none
  mul : Option ℚ := none
deriving DecidableEq, Repr

/-- The `params_with_addr` build loop: walk `paramlist` in order, skip
names without an info record or without an `id` key, apply defaults. -/
def buildParams (paramlist : List String) (paraminfo : List (String × ParamInfo)) :
    List PlanParam :=
  paramlist.filterMap fun n =>
    match paraminfo.lookup n with
    | some info =>
      match info.id with
      | some a => some ⟨n, a, info.size.getD 2, info.type.getD "float",
          info.endian.getD 1234, info.mul.getD 1⟩
      | none => none
    | none => none

/-- A register group during the walk: `start_addr`, running `end_addr`,
member list in processing order. -/
structure RegGroup where
  start_addr : ℕ
  end_addr : ℕ
  params : List PlanParam
deriving DecidableEq, Repr

/-- The grouping walk over the address-sorted parameter list: start a new
group when the next address exceeds the current group's end plus the gap,
otherwise extend the current group's end to `max(end, addr + size)` and
append the member. -/
def groupWalk (gap : ℕ) : Option RegGroup → List PlanParam → List RegGroup
  | none, [] => []
  | some g, [] => [g]
  | none, p :: rest => groupWalk gap (some ⟨p.address, p.address + p.size, [p]⟩) rest
  | some g, p :: rest =>
    if p.address ≤ g.end_addr + gap then
      groupWalk gap (some ⟨g.start_addr, max g.end_addr (p.address + p.size),
        g.params ++ [p]⟩) rest
    else
      g :: groupWalk gap (some ⟨p.address, p.address + p.size, [p]⟩) rest

/-- A finished group: start address, register count `end - start`, and
members paired with their word offsets `address - start`. -/
structure FinalGroup where
  start_addr : ℕ
  count : ℕ
  params : List (PlanParam × ℕ)
deriving DecidableEq, Repr

/-- The post-grouping pass computing `count` and member offsets. -/
def finalizeGroup (g : RegGroup) : FinalGroup :=
  ⟨g.start_addr, g.end_addr - g.start_addr,
    g.params.map fun p => (p, p.address - g.start_addr)⟩

/-- `group_contiguous_registers(paramlist, paraminfo, max_gap)` from
`loggerpcv01.py`: build parameter records, sort by address (Python's sort
is stable; `insertionSort` by address models it), walk into
gap-contiguous groups, then compute counts and offsets.  `max_gap` is
annotated `int` in the source but is a word-count gap threshold
(default 2), modelled as `ℕ`. -/
def group_contiguous_registers (paramlist : List String)
    (paraminfo : List (String × ParamInfo)) (gap : ℕ := 2) : List FinalGroup :=
  let ps := buildParams paramlist paraminfo
  let sorted := ps.insertionSort (fun a b => a.address ≤ b.address)
  (groupWalk gap none sorted).map finalizeGroup

/-- **C6** (confirmed). Parameters at address 10 (size 2 words) and
address 13 fall into one group exactly when the gap threshold is ≥ 1
(13 does not exceed the group end 12 plus the gap), and into two separate
groups when the gap is 0. -/
theorem C6_gap_threshold (gap : ℕ) :
    (1 ≤ gap →
      group_contiguous_registers ["A", "B"]
        [("A", ⟨some 10, some 2, none, none, none⟩),
         ("B", ⟨some 13, some 2, none, none, none⟩)] gap =
      [⟨10, 5, [(⟨"A", 10, 2, "float", 1234, 1⟩, 0),
                (⟨"B", 13, 2, "float", 1234, 1⟩, 3)]⟩]) ∧
    (gap = 0 →
      group_contiguous_registers ["A", "B"]
        [("A", ⟨some 10, some 2, none, none, none⟩),
         ("B", ⟨some 13, some 2, none, none, none⟩)] gap =
      [⟨10, 2, [(⟨"A", 10, 2, "float", 1234, 1⟩, 0)]⟩,
       ⟨13, 2, [(⟨"B", 13, 2, "float", 1234, 1⟩, 0)]⟩]) := by
  have hbuild : group_contiguous_registers ["A", "B"]
      [("A", ⟨some 10, some 2, none, none, none⟩),
       ("B", ⟨some 13, some 2, none, none, none⟩)] gap =
      (groupWalk gap none [⟨"A", 10, 2, "float", 1234, 1⟩,
        ⟨"B", 13, 2, "float", 1234, 1⟩]).map finalizeGroup := by
    rw [group_contiguous_registers]
    norm_num [buildParams, List.lookup, List.insertionSort, List.orderedInsert]
  have h1 : groupWalk gap none [⟨"A", 10, 2, "float", 1234, 1⟩,
      ⟨"B", 13, 2, "float", 1234, 1⟩] =
      if 13 ≤ 12 + gap then
        [(⟨10, max 12 15, [⟨"A", 10, 2, "float", 1234, 1⟩,
          ⟨"B", 13, 2, "float", 1234, 1⟩]⟩ : RegGroup)]
      else [⟨10, 12, [⟨"A", 10, 2, "float", 1234, 1⟩]⟩,
        ⟨13, 15, [⟨"B", 13, 2, "float", 1234, 1⟩]⟩] := by
    rfl
  constructor <;> intro h
  · rw [hbuild, h1, if_pos (show 13 ≤ 12 + gap by omega)]
    norm_num [finalizeGroup]
  · subst h
    rw [hbuild, h1, if_neg (by norm_num)]
    norm_num [finalizeGroup]

/-- Witness for C6: both branches instantiated (gap 1 merges, gap 0
splits). -/
theorem C6_gap_threshold_witness :
    group_contiguous_registers ["A", "B"]
      [("A", ⟨some 10, some 2, none, none, none⟩),
       ("B", ⟨some 13, some 2, none, none, none⟩)] 1 =
      [⟨10, 5, [(⟨"A", 10, 2, "float", 1234, 1⟩, 0),
                (⟨"B", 13, 2, "float", 1234, 1⟩, 3)]⟩] ∧
    (group_contiguous_registers ["A", "B"]
      [("A", ⟨some 10, some 2, none, none, none⟩),
       ("B", ⟨some 13, some 2, none, none, none⟩)] 0).length = 2 := by
  refine ⟨(C6_gap_threshold 1).1 (by norm_num), ?_⟩
  rw [(C6_gap_threshold 0).2 rfl]
  rfl

/-- Identity of a walk-level group: start, end, membership as a multiset. -/
def walkKey (g : RegGroup) : ℕ × ℕ × Multiset PlanParam :=
  (g.start_addr, g.end_addr, (g.params : Multiset PlanParam))

/-- Identity of a finished group: start address, register count, and the
members (with offsets) as a multiset. -/
def groupKey (g : FinalGroup) : ℕ × ℕ × Multiset (PlanParam × ℕ) :=
  (g.start_addr, g.count, (g.params : Multiset (PlanParam × ℕ)))

lemma groupWalk_congr (gap : ℕ) : ∀ (xs : List PlanParam) (c1 c2 : Option RegGroup),
    Option.map walkKey c1 = Option.map walkKey c2 →
    (groupWalk gap c1 xs).map walkKey = (groupWalk gap c2 xs).map walkKey := by
  intro xs
  induction xs with
  | nil =>
    intro c1 c2 h
    cases c1 <;> cases c2 <;> simp_all [groupWalk]
  | cons p rest ih =>
    intro c1 c2 h
    cases c1 with
    | none =>
      cases c2 with
      | none => rfl
      | some g2 => simp at h
    | some g1 =>
      cases c2 with
      | none => simp at h
      | some g2 =>
        have hk : walkKey g1 = walkKey g2 := by simpa using h
        have hs : g1.start_addr = g2.start_addr := congrArg (fun k => k.1) hk
        have he : g1.end_addr = g2.end_addr := congrArg (fun k => k.2.1) hk
        have hp : (g1.params : Multiset PlanParam) = (g2.params : Multiset PlanParam) :=
          congrArg (fun k => k.2.2) hk
        simp only [groupWalk]
        rw [he]
        by_cases hc : p.address ≤ g2.end_addr + gap
        · rw [if_pos hc, if_pos hc]
          apply ih
          simp only [Option.map_some', Option.some.injEq, walkKey, hs, he, Prod.mk.injEq]
          refine ⟨trivial, trivial, ?_⟩
          show ((g1.params ++ [p] : List PlanParam) : Multiset PlanParam) =
            ((g2.params ++ [p] : List PlanParam) : Multiset PlanParam)
          rw [← Multiset.coe_add, ← Multiset.coe_add, hp]
        · rw [if_neg hc, if_neg hc, List.map_cons, List.map_cons, hk]

lemma groupWalk_cons_congr (gap : ℕ) (h : PlanParam) (t1 t2 : List PlanParam)
    (H : ∀ c, (groupWalk gap c t1).map walkKey = (groupWalk gap c t2).map walkKey) :
    ∀ c, (groupWalk gap c (h :: t1)).map walkKey =
      (groupWalk gap c (h :: t2)).map walkKey := by
  intro c
  cases c with
  | none => exact H (some ⟨h.address, h.address + h.size, [h]⟩)
  | some g =>
    simp only [groupWalk]
    by_cases hc : h.address ≤ g.end_addr + gap
    · rw [if_pos hc, if_pos hc]
      exact H _
    · rw [if_neg hc, if_neg hc, List.map_cons, List.map_cons, H _]

lemma groupWalk_fresh_swap (gap : ℕ) (a b : PlanParam) (hab : a.address = b.address)
    (rest : List PlanParam) :
    (groupWalk gap (some ⟨a.address, a.address + a.size, [a]⟩) (b :: rest)).map walkKey =
      (groupWalk gap (some ⟨b.address, b.address + b.size, [b]⟩) (a :: rest)).map walkKey := by
  simp only [groupWalk]
  rw [if_pos (show b.address ≤ a.address + a.size + gap by omega),
    if_pos (show a.address ≤ b.address + b.size + gap by omega)]
  apply groupWalk_congr
  simp only [Option.map_some', Option.some.injEq, walkKey, Prod.mk.injEq]
  refine ⟨hab, by omega, ?_⟩
  show (([a, b] : List PlanParam) : Multiset PlanParam) =
    (([b, a] : List PlanParam) : Multiset PlanParam)
  exact Multiset.cons_swap a b 0

lemma groupWalk_swap (gap : ℕ) (a b : PlanParam) (hab : a.address = b.address)
    (rest : List PlanParam) : ∀ c : Option RegGroup,
    (groupWalk gap c (a :: b :: rest)).map walkKey =
      (groupWalk gap c (b :: a :: rest)).map walkKey := by
  intro c
  cases c with
  | none => exact groupWalk_fresh_swap gap a b hab rest
  | some g =>
    by_cases hj : a.address ≤ g.end_addr + gap
    · simp only [groupWalk]
      rw [if_pos hj, if_pos (show b.address ≤ g.end_addr + gap by omega)]
      rw [if_pos (show b.address ≤ max g.end_addr (a.address + a.size) + gap by omega),
        if_pos (show a.address ≤ max g.end_addr (b.address + b.size) + gap by omega)]
      apply groupWalk_congr
      simp only [Option.map_some', Option.some.injEq, walkKey, Prod.mk.injEq]
      refine ⟨trivial, by omega, ?_⟩
      show ((g.params ++ [a] ++ [b] : List PlanParam) : Multiset PlanParam) =
        ((g.params ++ [b] ++ [a] : List PlanParam) : Multiset PlanParam)
      simp only [← Multiset.coe_add]
      rw [add_right_comm]
    · simp only [groupWalk]
      rw [if_neg hj, if_neg (show ¬(b.address ≤ g.end_addr + gap) by omega),
        List.map_cons, List.map_cons]
      congr 1
      exact groupWalk_fresh_swap gap a b hab rest
/-- Sorted-by-address permutations of the same parameters produce the same
groups up to member order. -/
lemma groupWalk_sorted_perm (gap : ℕ) : ∀ (n : ℕ) (xs ys : List PlanParam),
    xs.length = n → xs.Perm ys →
    List.Sorted (fun a b : PlanParam => a.address ≤ b.address) xs →
    List.Sorted (fun a b : PlanParam => a.address ≤ b.address) ys →
    ∀ c, (groupWalk gap c xs).map walkKey = (groupWalk gap c ys).map walkKey := by
  intro n
  induction n using Nat.strong_induction_on with
  | _ n ih =>
    intro xs ys hlen hperm hsx hsy c
    cases xs with
    | nil =>
      have h0 : ys = [] := hperm.symm.eq_nil
      subst h0
      rfl
    | cons x xs' =>
      cases ys with
      | nil => exact absurd hperm.eq_nil (List.cons_ne_nil x xs')
      | cons y ys' =>
        by_cases hxy : x = y
        · subst hxy
          have hperm' : xs'.Perm ys' := hperm.cons_inv
          refine groupWalk_cons_congr gap x xs' ys' (fun c' => ?_) c
          exact ih xs'.length (by simp at hlen; omega) xs' ys' rfl hperm'
            hsx.of_cons hsy.of_cons c'
        · have hymem : y ∈ xs' := by
            rcases List.mem_cons.mp (hperm.mem_iff.mpr (List.mem_cons_self y ys')) with h | h
            · exact absurd h.symm hxy
            · exact h
          have hxmem : x ∈ ys' := by
            rcases List.mem_cons.mp (hperm.mem_iff.mp (List.mem_cons_self x xs')) with h | h
            · exact absurd h hxy
            · exact h
          have haddr : x.address = y.address :=
            le_antisymm (List.rel_of_sorted_cons hsx y hymem)
              (List.rel_of_sorted_cons hsy x hxmem)
          have hperm1 : xs'.Perm (y :: xs'.erase y) := List.perm_cons_erase hymem
          have hsx' : List.Sorted (fun a b : PlanParam => a.address ≤ b.address) xs' :=
            hsx.of_cons
          have hrsub : xs'.erase y ⊆ xs' := (List.erase_sublist y xs').subset
          have hsr : List.Sorted (fun a b : PlanParam => a.address ≤ b.address)
              (xs'.erase y) := List.Pairwise.sublist (List.erase_sublist y xs') hsx'
          have hs_yr : List.Sorted (fun a b : PlanParam => a.address ≤ b.address)
              (y :: xs'.erase y) :=
            List.sorted_cons.mpr
              ⟨fun b hb => haddr ▸ List.rel_of_sorted_cons hsx b (hrsub hb), hsr⟩
          have hs_xr : List.Sorted (fun a b : PlanParam => a.address ≤ b.address)
              (x :: xs'.erase y) :=
            List.sorted_cons.mpr
              ⟨fun b hb => List.rel_of_sorted_cons hsx b (hrsub hb), hsr⟩
          have hperm2 : (x :: xs'.erase y).Perm ys' := by
            have h1 : (x :: y :: xs'.erase y).Perm (y :: ys') :=
              (hperm1.cons x).symm.trans hperm
            exact ((List.Perm.swap x y (xs'.erase y)).trans h1).cons_inv
          have hlr : (xs'.erase y).length = xs'.length - 1 :=
            List.length_erase_of_mem hymem
          have hxl : 0 < xs'.length := List.length_pos_of_mem hymem
          have hlen' : xs'.length + 1 = n := by simpa using hlen
          have step1 : ∀ c', (groupWalk gap c' xs').map walkKey =
              (groupWalk gap c' (y :: xs'.erase y)).map walkKey :=
            fun c' => ih xs'.length (by omega) xs' (y :: xs'.erase y) rfl hperm1 hsx' hs_yr c'
          have step3 : ∀ c', (groupWalk gap c' (x :: xs'.erase y)).map walkKey =
              (groupWalk gap c' ys').map walkKey :=
            fun c' => ih (x :: xs'.erase y).length (by simp [hlr]; omega)
              (x :: xs'.erase y) ys' rfl hperm2 hs_xr hsy.of_cons c'
          calc (groupWalk gap c (x :: xs')).map walkKey
              = (groupWalk gap c (x :: y :: xs'.erase y)).map walkKey :=
                groupWalk_cons_congr gap x xs' (y :: xs'.erase y) step1 c
            _ = (groupWalk gap c (y :: x :: xs'.erase y)).map walkKey :=
                groupWalk_swap gap x y haddr (xs'.erase y) c
            _ = (groupWalk gap c (y :: ys')).map walkKey :=
                groupWalk_cons_congr gap y (x :: xs'.erase y) ys' step3 c
instance : IsTotal PlanParam (fun a b => a.address ≤ b.address) :=
  ⟨fun a b => Nat.le_total a.address b.address⟩

instance : IsTrans PlanParam (fun a b => a.address ≤ b.address) :=
  ⟨fun _ _ _ hab hbc => Nat.le_trans hab hbc⟩

lemma groupKey_finalizeGroup (g : RegGroup) :
    groupKey (finalizeGroup g) =
      (g.start_addr, g.end_addr - g.start_addr,
        Multiset.map (fun p => (p, p.address - g.start_addr))
          (g.params : Multiset PlanParam)) := by
  rw [groupKey, finalizeGroup]
  simp only [Prod.mk.injEq]
  exact ⟨trivial, trivial, (Multiset.map_coe _ _).symm⟩

/-- **C7** (confirmed). For a fixed gap threshold, the Register Planner is
deterministic and order-independent: planning any permutation of the input
parameter list yields identical groups by start address, register count,
and membership (members with offsets, compared as multisets since Python's
stable sort may order equal-address members differently). -/
theorem C7_planner_order_independent (l1 l2 : List String)
    (info : List (String × ParamInfo)) (gap : ℕ) (hperm : l1.Perm l2) :
    (group_contiguous_registers l1 info gap).map groupKey =
      (group_contiguous_registers l2 info gap).map groupKey := by
  simp only [group_contiguous_registers]
  have hp : (buildParams l1 info).Perm (buildParams l2 info) := hperm.filterMap _
  have hs1 := List.sorted_insertionSort (fun a b : PlanParam => a.address ≤ b.address)
    (buildParams l1 info)
  have hs2 := List.sorted_insertionSort (fun a b : PlanParam => a.address ≤ b.address)
    (buildParams l2 info)
  have hps : ((buildParams l1 info).insertionSort
        (fun a b : PlanParam => a.address ≤ b.address)).Perm
      ((buildParams l2 info).insertionSort
        (fun a b : PlanParam => a.address ≤ b.address)) :=
    (List.perm_insertionSort _ _).trans (hp.trans (List.perm_insertionSort _ _).symm)
  have hw := groupWalk_sorted_perm gap
    ((buildParams l1 info).insertionSort
      (fun a b : PlanParam => a.address ≤ b.address)).length _ _ rfl hps hs1 hs2 none
  have hcomp : ∀ (gs : List RegGroup),
      (gs.map finalizeGroup).map groupKey =
        (gs.map walkKey).map (fun k => (k.1, k.2.1 - k.1,
          Multiset.map (fun p => (p, p.address - k.1)) k.2.2)) := by
    intro gs
    rw [List.map_map, List.map_map]
    apply List.map_congr_left
    intro g _
    exact groupKey_finalizeGroup g
  rw [hcomp, hcomp, hw]
/-- Witness for C7: a concrete shuffle of the two-parameter list of C6
plans to identical groups. -/
theorem C7_planner_order_independent_witness :
    (group_contiguous_registers ["A", "B"]
      [("A", ⟨some 10, some 2, none, none, none⟩),
       ("B", ⟨some 13, some 2, none, none, none⟩)] 0).map groupKey =
      (group_contiguous_registers ["B", "A"]
        [("A", ⟨some 10, some 2, none, none, none⟩),
         ("B", ⟨some 13, some 2, none, none, none⟩)] 0).map groupKey :=
  C7_planner_order_independent ["A", "B"] ["B", "A"]
    [("A", ⟨some 10, some 2, none, none, none⟩),
     ("B", ⟨some 13, some 2, none, none, none⟩)] 0 (by decide)


/-! ### Poll scheduler (`modbus_logger` cycle loop) -/

/-- `MINUTE_INTERVAL_PARAMS`: energy and demand parameters stored only at
minute boundaries. -/
def MINUTE_INTERVAL_PARAMS : List String :=
  ["Import Active Energy", "Export Active Energy",
   "Import Reactive Energy", "Export Reactive Energy",
   "Power Demand", "Maximum Power Demand",
   "Current Demand", "Maximum Current Demand"]

/-- One delivery to the ingestion collaborator
(`api_client.send_meter_reading(meter_name, timestamp, values)`). -/
structure Delivery where
  meter : String
  timestamp : ℕ
  values : Readings
deriving DecidableEq, Repr

/-- Per-meter body of one poll cycle in `modbus_logger`: skip empty
readings, drop the whole cycle's data on validation failure, split into
instant and minute-interval subsets, deliver the instant subset (stamped
with the cycle's unix time) whenever non-empty, and the minute subset
(stamped with the floored minute) when non-empty and this cycle services
minute parameters. -/
def processMeter (unixTime currentMinute : ℕ) (readMinute : Bool)
    (meter : String) (readings : Readings) : List Delivery :=
  if readings.isEmpty then []
  else if validate_readings readings = false then []
  else
    let instant := readings.filter (fun kv => !MINUTE_INTERVAL_PARAMS.contains kv.1)
    let minute := readings.filter (fun kv => MINUTE_INTERVAL_PARAMS.contains kv.1)
    (if instant.isEmpty then [] else [⟨meter, unixTime, instant⟩]) ++
      (if !minute.isEmpty && readMinute then [⟨meter, currentMinute, minute⟩] else [])

/-- One iteration of the `while True` loop: floor the unix time to the
minute (`current_minute = unix_time - unix_time % 60`), set
`read_minute_data` when that minute is past `last_minute_storage`, process
each meter in order, and advance the marker afterwards when minute data
was serviced. -/
def runCycle (lastMinuteStorage : ℕ) (time : ℕ)
    (meters : List (String × Readings)) : ℕ × List Delivery :=
  let unixTime := time
  let currentMinute := unixTime - unixTime % 60
  let readMinute := decide (lastMinuteStorage < currentMinute)
  ((if readMinute then currentMinute else lastMinuteStorage),
    (meters.map fun mt => processMeter unixTime currentMinute readMinute mt.1 mt.2).flatten)

/-- A run of consecutive cycles, threading the marker and accumulating
deliveries in order. -/
def runCycles (lastMinuteStorage : ℕ) :
    List (ℕ × List (String × Readings)) → ℕ × List Delivery
  | [] => (lastMinuteStorage, [])
  | (t, ms) :: rest =>
    let step := runCycle lastMinuteStorage t ms
    let next := runCycles step.1 rest
    (next.1, step.2 ++ next.2)

/-- A run in which every cycle polls the single meter `m`. -/
def runCyclesOne (lastMinuteStorage : ℕ) (m : String)
    (cycles : List (ℕ × Readings)) : ℕ × List Delivery :=
  runCycles lastMinuteStorage (cycles.map fun c => (c.1, [(m, c.2)]))

/-- A delivery of the minute-interval subset: non-empty and every
parameter minute-interval (instant deliveries always carry a non-minute
parameter, so the two kinds never coincide). -/
def isMinuteDelivery (d : Delivery) : Bool :=
  !d.values.isEmpty && d.values.all fun kv => MINUTE_INTERVAL_PARAMS.contains kv.1

/-- The instant-subset delivery is never a minute delivery. -/
lemma isMinuteDelivery_instant (m : String) (ut : ℕ) (r : Readings) :
    isMinuteDelivery ⟨m, ut, r.filter fun kv => !MINUTE_INTERVAL_PARAMS.contains kv.1⟩
      = false := by
  rw [isMinuteDelivery]
  cases he : (r.filter fun kv => !MINUTE_INTERVAL_PARAMS.contains kv.1).isEmpty with
  | true => simp [he]
  | false =>
    obtain ⟨kv, hkv⟩ :=
      List.exists_mem_of_ne_nil _ (List.isEmpty_eq_false.mp he)
    have hc := (List.mem_filter.mp hkv).2
    have hall : ((r.filter fun kv => !MINUTE_INTERVAL_PARAMS.contains kv.1).all
        fun kv => MINUTE_INTERVAL_PARAMS.contains kv.1) = false := by
      rw [List.all_eq_false]
      exact ⟨kv, hkv, by simp_all⟩
    dsimp only
    rw [hall, Bool.and_false]

/-- The minute-subset delivery is a minute delivery when non-empty. -/
lemma isMinuteDelivery_minute (m : String) (cm : ℕ) (r : Readings)
    (hne : (r.filter fun kv => MINUTE_INTERVAL_PARAMS.contains kv.1) ≠ []) :
    isMinuteDelivery ⟨m, cm, r.filter fun kv => MINUTE_INTERVAL_PARAMS.contains kv.1⟩
      = true := by
  rw [isMinuteDelivery]
  have h1 : (r.filter fun kv => MINUTE_INTERVAL_PARAMS.contains kv.1).isEmpty = false :=
    List.isEmpty_eq_false.mpr hne
  have h2 : ((r.filter fun kv => MINUTE_INTERVAL_PARAMS.contains kv.1).all
      fun kv => MINUTE_INTERVAL_PARAMS.contains kv.1) = true :=
    List.all_eq_true.mpr fun kv hkv => (List.mem_filter.mp hkv).2
  dsimp only
  rw [h1, h2, Bool.and_true]
  rfl

/-- Classification of the deliveries a cycle body emits. -/
lemma processMeter_mem {ut cm : ℕ} {rm : Bool} {m : String} {r : Readings}
    {d : Delivery} (h : d ∈ processMeter ut cm rm m r) :
    d.meter = m ∧
    ((isMinuteDelivery d = true ∧ d.timestamp = cm ∧ rm = true) ∨
      (isMinuteDelivery d = false ∧ d.timestamp = ut)) := by
  rw [processMeter] at h
  split at h
  · cases h
  · split at h
    · cases h
    · rw [List.mem_append] at h
      rcases h with h | h
      · split at h
        · cases h
        · rw [List.mem_singleton] at h
          subst h
          exact ⟨rfl, Or.inr ⟨isMinuteDelivery_instant m ut r, rfl⟩⟩
      · split at h
        · rw [List.mem_singleton] at h
          subst h
          rename_i hcond
          rw [Bool.and_eq_true, Bool.not_eq_true'] at hcond
          exact ⟨rfl, Or.inl ⟨isMinuteDelivery_minute m cm r
            (List.isEmpty_eq_false.mp hcond.1), rfl, hcond.2⟩⟩
        · cases h
/-- The minute-filtered part of one cycle body: empty, or exactly the one
minute-subset delivery (only on servicing cycles). -/
lemma processMeter_minute_filter (ut cm : ℕ) (rm : Bool) (m : String) (r : Readings) :
    (processMeter ut cm rm m r).filter isMinuteDelivery = [] ∨
    ((processMeter ut cm rm m r).filter isMinuteDelivery =
      [⟨m, cm, r.filter fun kv => MINUTE_INTERVAL_PARAMS.contains kv.1⟩] ∧ rm = true) := by
  rw [processMeter]
  split
  · exact Or.inl rfl
  · split
    · exact Or.inl rfl
    · rw [List.filter_append]
      have hinst : ((if (r.filter fun kv =>
            !MINUTE_INTERVAL_PARAMS.contains kv.1).isEmpty
          then ([] : List Delivery)
          else [⟨m, ut, r.filter fun kv => !MINUTE_INTERVAL_PARAMS.contains kv.1⟩]).filter
            isMinuteDelivery) = [] := by
        split
        · rfl
        · rw [List.filter_singleton, isMinuteDelivery_instant]
          rfl
      rw [hinst, List.nil_append]
      by_cases hc : ((!(r.filter fun kv =>
          MINUTE_INTERVAL_PARAMS.contains kv.1).isEmpty) && rm) = true
      · rw [if_pos hc]
        rw [Bool.and_eq_true, Bool.not_eq_true'] at hc
        rw [List.filter_singleton,
          isMinuteDelivery_minute m cm r (List.isEmpty_eq_false.mp hc.1)]
        exact Or.inr ⟨rfl, hc.2⟩
      · rw [if_neg hc]
        exact Or.inl rfl

/-- The marker after one cycle. -/
lemma runCycle_fst (lms t : ℕ) (ms : List (String × Readings)) :
    (runCycle lms t ms).1 = if lms < t - t % 60 then t - t % 60 else lms := by
  rw [runCycle]
  by_cases h : lms < t - t % 60 <;> simp [h]

/-- The marker never decreases. -/
lemma le_runCycle_fst (lms t : ℕ) (ms : List (String × Readings)) :
    lms ≤ (runCycle lms t ms).1 := by
  rw [runCycle_fst]
  split <;> omega

/-- Classification of one cycle's deliveries: minute deliveries are
stamped with the floored minute and occur only on servicing cycles;
instant deliveries are stamped with the cycle's unix time. -/
lemma runCycle_mem {lms t : ℕ} {ms : List (String × Readings)} {d : Delivery}
    (h : d ∈ (runCycle lms t ms).2) :
    (isMinuteDelivery d = true ∧ d.timestamp = t - t % 60 ∧ lms < t - t % 60) ∨
      (isMinuteDelivery d = false ∧ d.timestamp = t) := by
  rw [runCycle] at h
  simp only [List.mem_flatten, List.mem_map] at h
  obtain ⟨l, ⟨mt, hmt, rfl⟩, hd⟩ := h
  rcases (processMeter_mem hd).2 with ⟨h1, h2, h3⟩ | ⟨h1, h2⟩
  · exact Or.inl ⟨h1, h2, of_decide_eq_true h3⟩
  · exact Or.inr ⟨h1, h2⟩

/-- Every minute delivery of a run is stamped strictly after the marker
the run started with. -/
lemma runCycles_minute_gt : ∀ (cycles : List (ℕ × List (String × Readings)))
    (lms : ℕ) (d : Delivery), d ∈ (runCycles lms cycles).2 →
    isMinuteDelivery d = true → lms < d.timestamp := by
  intro cycles
  induction cycles with
  | nil => intro lms d h _; cases h
  | cons c rest ih =>
    obtain ⟨t, ms⟩ := c
    intro lms d h hmin
    rw [runCycles] at h
    rcases List.mem_append.mp h with h | h
    · rcases runCycle_mem h with ⟨_, h2, h3⟩ | ⟨h1, _⟩
      · omega
      · rw [hmin] at h1; cases h1
    · exact lt_of_le_of_lt (le_runCycle_fst lms t ms) (ih _ d h hmin)

/-- The cons equation of a single-meter run. -/
lemma runCyclesOne_cons (lms : ℕ) (m : String) (t : ℕ) (r : Readings)
    (rest : List (ℕ × Readings)) :
    runCyclesOne lms m ((t, r) :: rest) =
      ((runCyclesOne (runCycle lms t [(m, r)]).1 m rest).1,
        (runCycle lms t [(m, r)]).2 ++
          (runCyclesOne (runCycle lms t [(m, r)]).1 m rest).2) := rfl

/-- In a single-meter cycle, the cycle body is one `processMeter` call. -/
lemma runCycle_one (lms t : ℕ) (m : String) (r : Readings) :
    (runCycle lms t [(m, r)]).2 =
      processMeter t (t - t % 60) (decide (lms < t - t % 60)) m r := by
  rw [runCycle]
  simp

/-- Minute deliveries of a single-meter run have strictly increasing
timestamps: no boundary is ever served twice. -/
lemma runCyclesOne_minute_pairwise (m : String) :
    ∀ (cycles : List (ℕ × Readings)) (lms : ℕ),
    List.Pairwise (fun d1 d2 : Delivery => d1.timestamp < d2.timestamp)
      ((runCyclesOne lms m cycles).2.filter isMinuteDelivery) := by
  intro cycles
  induction cycles with
  | nil => intro lms; exact List.Pairwise.nil
  | cons c rest ih =>
    obtain ⟨t, r⟩ := c
    intro lms
    rw [runCyclesOne_cons]
    dsimp only
    rw [List.filter_append]
    apply List.pairwise_append.mpr
    refine ⟨?_, ih _, ?_⟩
    · -- the head cycle's minute deliveries are pairwise (at most one)
      rw [runCycle_one]
      rcases processMeter_minute_filter t (t - t % 60)
          (decide (lms < t - t % 60)) m r with hf | ⟨hf, _⟩ <;> rw [hf]
      · exact List.Pairwise.nil
      · exact List.pairwise_singleton _ _
    · -- every head minute delivery precedes every later one
      intro d1 hd1 d2 hd2
      have h1 := List.mem_filter.mp hd1
      have h2 := List.mem_filter.mp hd2
      rcases runCycle_mem h1.1 with ⟨_, ht1, hlt⟩ | ⟨hfalse, _⟩
      · have hgt := runCycles_minute_gt _ _ d2 h2.1 h2.2
        rw [runCycle_fst, if_pos hlt] at hgt
        omega
      · rw [h1.2] at hfalse; cases hfalse
/-- The minute-stamped-`B` deliveries of one cycle body with good
readings: exactly the minute-subset delivery when the cycle services
minute data and its boundary is `B`, none otherwise. -/
lemma processMeter_count (ut cm : ℕ) (rm : Bool) (m : String) (r : Readings) (B : ℕ)
    (hne : r.isEmpty = false) (hval : validate_readings r = true)
    (hmne : (r.filter fun kv => MINUTE_INTERVAL_PARAMS.contains kv.1) ≠ []) :
    (processMeter ut cm rm m r).filter
        (fun d => isMinuteDelivery d && d.timestamp == B) =
      (if rm = true ∧ cm = B then
        [⟨m, cm, r.filter fun kv => MINUTE_INTERVAL_PARAMS.contains kv.1⟩]
      else []) := by
  rw [processMeter, if_neg (by simp [hne]), if_neg (by simp [hval]), List.filter_append]
  have hinst : ((if (r.filter fun kv =>
        !MINUTE_INTERVAL_PARAMS.contains kv.1).isEmpty
      then ([] : List Delivery)
      else [⟨m, ut, r.filter fun kv => !MINUTE_INTERVAL_PARAMS.contains kv.1⟩]).filter
        (fun d => isMinuteDelivery d && d.timestamp == B)) = [] := by
    split
    · rfl
    · rw [List.filter_singleton, isMinuteDelivery_instant, Bool.false_and]
      rfl
  rw [hinst, List.nil_append]
  have hmE : (r.filter fun kv => MINUTE_INTERVAL_PARAMS.contains kv.1).isEmpty = false :=
    List.isEmpty_eq_false.mpr hmne
  rw [hmE]
  cases rm with
  | false =>
    rw [if_neg (by simp), if_neg (by simp)]
    rfl
  | true =>
    rw [if_pos (by simp)]
    rw [List.filter_singleton]
    by_cases hB : cm = B
    · subst hB
      rw [if_pos ⟨rfl, rfl⟩, isMinuteDelivery_minute m cm r hmne, Bool.true_and]
      dsimp only
      rw [beq_self_eq_true]
      rfl
    · rw [if_neg (fun hc => hB hc.2), isMinuteDelivery_minute m cm r hmne, Bool.true_and]
      dsimp only
      rw [show (cm == B) = false from beq_eq_false_iff_ne.mpr hB]
      rfl

/-- Exactly-once service: in a single-meter run with good readings every
cycle, times whose floored minutes advance by at most one boundary per
step (and start at most one boundary past the marker), every minute
boundary `B` past the initial marker that the run reaches is delivered
exactly once. -/
lemma runCyclesOne_exactly_once (m : String) :
    ∀ (cycles : List (ℕ × Readings)) (lms B : ℕ),
    60 ∣ lms → 60 ∣ B → lms < B →
    (∀ c, cycles.head? = some c → c.1 - c.1 % 60 ≤ lms + 60) →
    List.Chain' (fun a b : ℕ × Readings => b.1 - b.1 % 60 ≤ a.1 - a.1 % 60 + 60) cycles →
    (∀ c ∈ cycles, c.2.isEmpty = false ∧ validate_readings c.2 = true ∧
      (c.2.filter fun kv => MINUTE_INTERVAL_PARAMS.contains kv.1) ≠ []) →
    (∃ c ∈ cycles, B ≤ c.1 - c.1 % 60) →
    ((runCyclesOne lms m cycles).2.filter
      (fun d => isMinuteDelivery d && d.timestamp == B)).length = 1 := by
  intro cycles
  induction cycles with
  | nil =>
    intro lms B _ _ _ _ _ _ hex
    simp at hex
  | cons c rest ih =>
    obtain ⟨t, r⟩ := c
    intro lms B hdl hdB hlB hhead hchain hok hex
    obtain ⟨hne, hval, hmne⟩ := hok (t, r) (List.mem_cons_self _ _)
    have hdcm : 60 ∣ t - t % 60 := by omega
    have hcm_le : t - t % 60 ≤ lms + 60 := hhead (t, r) rfl
    rw [runCyclesOne_cons]
    dsimp only
    rw [List.filter_append, List.length_append, runCycle_one,
      processMeter_count t (t - t % 60) _ m r B hne hval hmne]
    have hchain' : List.Chain' (fun a b : ℕ × Readings =>
        b.1 - b.1 % 60 ≤ a.1 - a.1 % 60 + 60) rest := hchain.tail
    have hok' : ∀ c ∈ rest, c.2.isEmpty = false ∧ validate_readings c.2 = true ∧
        (c.2.filter fun kv => MINUTE_INTERVAL_PARAMS.contains kv.1) ≠ [] :=
      fun c hc => hok c (List.mem_cons_of_mem _ hc)
    have hhead_rest : ∀ c, rest.head? = some c →
        c.1 - c.1 % 60 ≤ (t - t % 60) + 60 := by
      intro c hc
      cases rest with
      | nil => cases hc
      | cons c' rest' =>
        cases hc
        exact (List.chain'_cons.mp hchain).1
    by_cases hserve : lms < t - t % 60
    · have hfst : (runCycle lms t [(m, r)]).1 = t - t % 60 := by
        rw [runCycle_fst, if_pos hserve]
      have hcm : t - t % 60 = lms + 60 := by omega
      by_cases hB : t - t % 60 = B
      · -- this cycle serves B; the rest serves only later boundaries
        rw [if_pos ⟨by simp [hserve], hB⟩]
        have hrest0 : ((runCyclesOne (runCycle lms t [(m, r)]).1 m rest).2.filter
            (fun d => isMinuteDelivery d && d.timestamp == B)) = [] := by
          rw [List.filter_eq_nil_iff]
          intro d hd
          intro hcontra
          rw [Bool.and_eq_true, beq_iff_eq] at hcontra
          have := runCycles_minute_gt _ _ d hd hcontra.1
          rw [hfst, hB] at this
          omega
        rw [hrest0]
        rfl
      · -- B lies beyond this cycle's boundary
        rw [if_neg (by intro hc; exact hB hc.2)]
        have hfurther : lms + 60 < B := by omega
        have hex' : ∃ c ∈ rest, B ≤ c.1 - c.1 % 60 := by
          rcases hex with ⟨c, hc, hBc⟩
          rcases List.mem_cons.mp hc with hc | hc
          · subst hc
            omega
          · exact ⟨c, hc, hBc⟩
        have := ih (runCycle lms t [(m, r)]).1 B (by rw [hfst]; omega)
          hdB (by rw [hfst]; omega)
          (by rw [hfst]; exact hhead_rest) hchain' hok' hex'
        rw [this]
        rfl
    · -- not serving: marker unchanged, head contributes nothing
      rw [if_neg (fun hc => hserve (of_decide_eq_true hc.1))]
      have hfst : (runCycle lms t [(m, r)]).1 = lms := by
        rw [runCycle_fst, if_neg hserve]
      have hex' : ∃ c ∈ rest, B ≤ c.1 - c.1 % 60 := by
        rcases hex with ⟨c, hc, hBc⟩
        rcases List.mem_cons.mp hc with hc | hc
        · subst hc
          omega
        · exact ⟨c, hc, hBc⟩
      have := ih (runCycle lms t [(m, r)]).1 B (by rw [hfst]; exact hdl)
        hdB (by rw [hfst]; exact hlB)
        (by rw [hfst]; intro c hc; have := hhead_rest c hc; omega) hchain' hok' hex'
      rw [this]
      rfl
/-- The cycle body emits the instant delivery whenever its subset is
non-empty, and the minute delivery exactly on servicing cycles. -/
lemma processMeter_mem_emit (ut cm : ℕ) (rm : Bool) (m : String) (r : Readings)
    (hne : r.isEmpty = false) (hval : validate_readings r = true) :
    ((r.filter fun kv => !MINUTE_INTERVAL_PARAMS.contains kv.1) ≠ [] →
      (⟨m, ut, r.filter fun kv => !MINUTE_INTERVAL_PARAMS.contains kv.1⟩ : Delivery) ∈
        processMeter ut cm rm m r) ∧
    ((r.filter fun kv => MINUTE_INTERVAL_PARAMS.contains kv.1) ≠ [] → rm = true →
      (⟨m, cm, r.filter fun kv => MINUTE_INTERVAL_PARAMS.contains kv.1⟩ : Delivery) ∈
        processMeter ut cm rm m r) := by
  rw [processMeter, if_neg (by simp [hne]), if_neg (by simp [hval])]
  constructor
  · intro hi
    apply List.mem_append_left
    rw [if_neg (by rw [List.isEmpty_eq_false.mpr hi]; simp)]
    exact List.mem_singleton_self _
  · intro hm hrm
    apply List.mem_append_right
    rw [if_pos (by rw [List.isEmpty_eq_false.mpr hm, hrm]; rfl)]
    exact List.mem_singleton_self _

/-- **C2** (corrected): "exactly once per boundary crossed" fails when one
gap between cycles crosses several minute boundaries — only the newest
boundary is serviced.  Amended: the stored marker advances exactly on
cycles whose floored minute exceeds it (and to that floored minute);
minute deliveries are stamped with the cycle's floored minute (never
wall-clock) and occur only on such servicing cycles, while instant
deliveries are stamped with the cycle's unix time and are emitted every
cycle whose readings pass validation; minute-delivery timestamps are
strictly increasing across a run (never more than one delivery per
boundary); and when consecutive cycles advance the floored minute by at
most one boundary and every cycle's readings are non-empty, valid, and
contain a minute-interval parameter, every boundary past the initial
marker that the run reaches is delivered exactly once. -/
theorem C2_minute_cadence :
    (∀ (lms t : ℕ) (ms : List (String × Readings)),
      (runCycle lms t ms).1 = if lms < t - t % 60 then t - t % 60 else lms) ∧
    (∀ (lms t : ℕ) (ms : List (String × Readings)) (d : Delivery),
      d ∈ (runCycle lms t ms).2 →
      (isMinuteDelivery d = true ∧ d.timestamp = t - t % 60 ∧ lms < t - t % 60) ∨
        (isMinuteDelivery d = false ∧ d.timestamp = t)) ∧
    (∀ (ut cm : ℕ) (rm : Bool) (m : String) (r : Readings),
      r.isEmpty = false → validate_readings r = true →
      ((r.filter fun kv => !MINUTE_INTERVAL_PARAMS.contains kv.1) ≠ [] →
        (⟨m, ut, r.filter fun kv => !MINUTE_INTERVAL_PARAMS.contains kv.1⟩ : Delivery) ∈
          processMeter ut cm rm m r) ∧
      ((r.filter fun kv => MINUTE_INTERVAL_PARAMS.contains kv.1) ≠ [] → rm = true →
        (⟨m, cm, r.filter fun kv => MINUTE_INTERVAL_PARAMS.contains kv.1⟩ : Delivery) ∈
          processMeter ut cm rm m r)) ∧
    (∀ (lms : ℕ) (m : String) (cycles : List (ℕ × Readings)),
      List.Pairwise (fun d1 d2 : Delivery => d1.timestamp < d2.timestamp)
        ((runCyclesOne lms m cycles).2.filter isMinuteDelivery)) ∧
    (∀ (m : String) (cycles : List (ℕ × Readings)) (lms B : ℕ),
      60 ∣ lms → 60 ∣ B → lms < B →
      (∀ c, cycles.head? = some c → c.1 - c.1 % 60 ≤ lms + 60) →
      List.Chain' (fun a b : ℕ × Readings =>
        b.1 - b.1 % 60 ≤ a.1 - a.1 % 60 + 60) cycles →
      (∀ c ∈ cycles, c.2.isEmpty = false ∧ validate_readings c.2 = true ∧
        (c.2.filter fun kv => MINUTE_INTERVAL_PARAMS.contains kv.1) ≠ []) →
      (∃ c ∈ cycles, B ≤ c.1 - c.1 % 60) →
      ((runCyclesOne lms m cycles).2.filter
        (fun d => isMinuteDelivery d && d.timestamp == B)).length = 1) :=
  ⟨runCycle_fst, fun _ _ _ _ h => runCycle_mem h,
    fun ut cm rm m r hne hval => processMeter_mem_emit ut cm rm m r hne hval,
    fun lms m cycles => runCyclesOne_minute_pairwise m cycles lms,
    fun m cycles lms B => runCyclesOne_exactly_once m cycles lms B⟩

/-- Counterexample for C2 as stated: cycles at unix times 30 and 150 cross
two minute boundaries (60 and 120), with good minute-parameter readings at
every cycle, yet only one minute delivery happens (stamped 120) — the
boundary 60 is never delivered, so delivery is not "exactly once per
boundary crossed". -/
theorem C2_minute_cadence_counterexample :
    (runCyclesOne 0 "M"
      [(30, [("Import Active Energy", some (PyNum.num 1000))]),
       (150, [("Import Active Energy", some (PyNum.num 1000))])]).2 =
      [⟨"M", 120, [("Import Active Energy", some (PyNum.num 1000))]⟩] ∧
    (30 < 60 ∧ 60 ≤ 150 ∧ 60 % 60 = 0) ∧
    (∀ d ∈ (runCyclesOne 0 "M"
      [(30, [("Import Active Energy", some (PyNum.num 1000))]),
       (150, [("Import Active Energy", some (PyNum.num 1000))])]).2,
      d.timestamp ≠ 60) := by
  refine ⟨?_, by norm_num, ?_⟩
  · decide
  · decide

/-- Witness for C2 (amended): a single cycle at unix time 70 with an
energy reading serves the boundary 60 exactly once. -/
theorem C2_minute_cadence_witness :
    ((runCyclesOne 0 "M" [(70, [("Import Active Energy", some (PyNum.num 1000))])]).2.filter
      (fun d => isMinuteDelivery d && d.timestamp == 60)).length = 1 := by
  apply C2_minute_cadence.2.2.2.2 "M"
    [(70, [("Import Active Energy", some (PyNum.num 1000))])] 0 60
    (by norm_num) (by norm_num) (by norm_num)
  · intro c hc
    cases hc
    decide
  · exact List.chain'_singleton _
  · intro c hc
    rw [List.mem_singleton] at hc
    subst hc
    refine ⟨by decide, by decide, by decide⟩
  · exact ⟨(70, [("Import Active Energy", some (PyNum.num 1000))]),
      List.mem_singleton_self _, by decide⟩

end HomeMonitoring
